import Mathlib

/-!
Verification of `scripts/sync-secrets.py`, a script that syncs GitHub
secrets across multiple repositories.

The script is embedded shallowly: every subprocess invocation
(`security find-generic-password`, `gh secret list`, `gh secret set`),
the JSON decoder, the terminal check, the masked prompt and standard
input are summarised in a `World` record of oracles.  Each embedded
function returns its Python return value together with the ordered
list of observable `Event`s (subprocess calls, prompts, reads and
printed lines) it performs, so that claims about "no remote call" or
"a line is printed" become statements about the trace.

Python exceptions that the script catches are modelled as ordinary
values; the one uncaught exception that can escape (`TypeError` when a
`json_path` segment indexes a non-object) is modelled explicitly
(`KCResult.crash`, and `Run.exit = none` for the whole process).
-/

/-- Result of a finished subprocess, mirroring
`subprocess.CompletedProcess` (text mode). -/
structure CompletedProcess where
  returncode : Int
  stdout : String
  stderr : String
deriving DecidableEq

/-- Model of the JSON values produced by `json.loads`.  Numbers are
restricted to integers; floats never occur in the claims under
verification. -/
inductive Json where
  | null
  | bool (b : Bool)
  | num (n : Int)
  | str (s : String)
  | arr (elems : List Json)
  | obj (fields : List (String × Json))

/-- The two Python exceptions `data[key]` can raise during the
`json_path` walk: `KeyError` (key absent from a dict) and `TypeError`
(indexing a non-dict with a string key). -/
inductive PyKeyErr where
  | keyError
  | typeError
deriving DecidableEq

/-- Python `data[key]` on a decoded JSON value with a string key.  Only dicts
support string indexing; a missing key raises `KeyError`, every other
value raises `TypeError`. -/
def Json.index : Json → String → Except PyKeyErr Json
  | .obj fields, k =>
      match fields.find? (fun p => p.1 == k) with
      | some p => .ok p.2
      | none => .error .keyError
  | _, _ => .error .typeError

/-- The loop `for key in config.json_path.split("."): data = data[key]`
(source lines 126–127). -/
def jsonWalk : Json → List String → Except PyKeyErr Json
  | d, [] => .ok d
  | d, k :: ks =>
      match d.index k with
      | .ok d2 => jsonWalk d2 ks
      | .error e => .error e

/-- Python `repr` of a string, simplified to always use single quotes
(no claim exercises quoting of structured values). -/
def pyReprStr (s : String) : String := "'" ++ s ++ "'"

mutual

/-- Python `repr`/`str` of a non-string JSON value. -/
def jsonPyRepr : Json → String
  | .null => "None"
  | .bool true => "True"
  | .bool false => "False"
  | .num n => toString n
  | .str s => pyReprStr s
  | .arr xs => "[" ++ jsonPyReprList xs ++ "]"
  | .obj fs => "\x7b" ++ jsonPyReprObj fs ++ "\x7d"

/-- Comma-separated `repr` of list elements. -/
def jsonPyReprList : List Json → String
  | [] => ""
  | [x] => jsonPyRepr x
  | x :: y :: xs => jsonPyRepr x ++ ", " ++ jsonPyReprList (y :: xs)

/-- Comma-separated `repr` of dict entries. -/
def jsonPyReprObj : List (String × Json) → String
  | [] => ""
  | [(k, v)] => pyReprStr k ++ ": " ++ jsonPyRepr v
  | (k, v) :: e :: fs =>
      pyReprStr k ++ ": " ++ jsonPyRepr v ++ ", " ++ jsonPyReprObj (e :: fs)

end

/-- Python `str()` applied to a decoded JSON value (source line 128):
the identity on strings, `repr`-like otherwise. -/
def jsonPyStr : Json → String
  | .str s => s
  | d => jsonPyRepr d

/-- The whitespace characters removed by Python `str.strip()` (ASCII
subset; the exotic Unicode whitespace never occurs in the claims). -/
def isPyWs (c : Char) : Bool :=
  c = ' ' || c = '\t' || c = '\n' || c = '\r' || c = '\x0b' || c = '\x0c'

/-- Python `str.strip()`: remove leading and trailing whitespace. -/
def pyStrip (s : String) : String :=
  String.mk (((s.data.dropWhile isPyWs).reverse.dropWhile isPyWs).reverse)

/-- Removing only trailing whitespace, for comparison with the spec's
description of piped input handling. -/
def pyStripTrailing (s : String) : String :=
  String.mk ((s.data.reverse.dropWhile isPyWs).reverse)

/-- Worker for `pySplit`: split a character list at every occurrence
of `sep`, `acc` holding the (reversed) current field. -/
def pySplitAux (sep : Char) : List Char → List Char → List String
  | [], acc => [String.mk acc.reverse]
  | c :: cs, acc =>
      if c = sep then String.mk acc.reverse :: pySplitAux sep cs []
      else pySplitAux sep cs (c :: acc)

/-- Python `str.split(sep)` for a one-character separator (the script
only splits on `"."`, `"\t"` and `"\n"`): `""` yields `[""]` and a
trailing separator yields a trailing empty field, as in Python. -/
def pySplit (s : String) (sep : Char) : List String :=
  pySplitAux sep s.data []

/-- Python `str.splitlines()` restricted to `\n` line boundaries (the
only separator occurring in `gh` output). -/
def pySplitlines (s : String) : List String :=
  if s.data = [] then []
  else
    let parts := pySplit s '\n'
    if s.data.getLast? = some '\n' then parts.dropLast else parts

/-! ## Data model (source lines 37–67) -/

/-- The `KeychainConfig` dataclass: configuration for keychain lookup. -/
structure KeychainConfig where
  service : String
  json_path : Option String
deriving DecidableEq

/-- The `SecretDef` dataclass: definition of a secret. -/
structure SecretDef where
  name : String
  description : String
  keychain : Option KeychainConfig
deriving DecidableEq

/-- The `RepoDef` dataclass: definition of a repository. -/
structure RepoDef where
  name : String
  secrets : List String
deriving DecidableEq

/-- The `Config` dataclass.  Python's insertion-ordered dicts are modelled
as association lists (keys are unique in a document produced by
`yaml.safe_load`). -/
structure Config where
  secrets : List (String × SecretDef)
  repos : List (String × RepoDef)
deriving DecidableEq

/-! ## The outside world -/

/-- Observable actions of one invocation, in program order. -/
inductive Event where
  | securityFind (service user : String)
  | ghList (repo : String)
  | ghSet (repo name value : String)
  | promptUser (name : String)
  | readLine
  | print (s : String)
deriving DecidableEq

/-- Everything the script observes from outside: `sys.platform`, the
`USER` environment variable, the results of the three subprocess
invocations, the JSON decoder (`none` models `json.JSONDecodeError`),
`sys.stdin.isatty()` and the `getpass` prompt result (keyed by the
secret name appearing in the prompt).  Standard input is threaded
separately as a consumable list of lines. -/
structure World where
  platform : String
  user : String
  security : String → CompletedProcess
  loads : String → Option Json
  ghSecretList : String → CompletedProcess
  ghSecretSet : String → String → String → CompletedProcess
  isatty : Bool
  getpass : String → String

/-! ## Credential store adapter (source lines 100–132) -/

/-- Result of `get_from_keychain`: either the Python return value
(`none` models Python `None`), or an uncaught `TypeError` escaping the
function (`data[key]` on a non-dict is not in the `except` clause). -/
inductive KCResult where
  | crash
  | value (v : Option String)
deriving DecidableEq

/-- Embedding of `get_from_keychain(config)`.  `subprocess.CalledProcessError`
(nonzero exit with `check=True`), `json.JSONDecodeError` and
`KeyError` are caught and yield `None`; a `TypeError` from the
`json_path` walk is not caught. -/
def get_from_keychain (w : World) (config : KeychainConfig) :
    KCResult × List Event :=
  if w.platform ≠ "darwin" then (.value none, [])
  else
    let result := w.security config.service
    let evs := [Event.securityFind config.service w.user]
    if result.returncode ≠ 0 then (.value none, evs)
    else
      let value := pyStrip result.stdout
      match config.json_path with
      | some jp =>
          if jp ≠ "" && value ≠ "" then
            match w.loads value with
            | none => (.value none, evs)
            | some data =>
                match jsonWalk data (pySplit jp '.') with
                | .ok d => (.value (some (jsonPyStr d)), evs)
                | .error .keyError => (.value none, evs)
                | .error .typeError => (.crash, evs)
          else (.value (some value), evs)
      | none => (.value (some value), evs)

/-! ## Repository secret client (source lines 145–171) -/

/-- Embedding of `secret_exists(repo, name)`: run `gh secret list --repo repo` with
`check=False`; nonzero exit means `False`, otherwise scan each output
line's first tab-delimited field for an exact match. -/
def secret_exists (w : World) (repo name : String) : Bool × List Event :=
  let result := w.ghSecretList repo
  let evs := [Event.ghList repo]
  if result.returncode ≠ 0 then (false, evs)
  else
    ((pySplitlines result.stdout).any
      (fun line => (pySplit line '\t').headD "" == name), evs)

/-- Embedding of `set_secret(repo, name, value, dry_run)`: in dry-run mode only log;
otherwise run `gh secret set` and report success or failure. -/
def set_secret (w : World) (repo name value : String) (dry_run : Bool) :
    Bool × List Event :=
  if dry_run then
    (true, [Event.print ("  [dry-run] Would set " ++ name ++ " in " ++ repo)])
  else
    let result := w.ghSecretSet repo name value
    let evs := [Event.ghSet repo name value]
    if result.returncode ≠ 0 then
      (false, evs ++ [Event.print ("  ✗ Failed to set " ++ name ++ " in "
        ++ repo ++ ": " ++ pyStrip result.stderr)])
    else
      (true, evs ++ [Event.print ("  ✓ Set " ++ name ++ " in " ++ repo)])

/-! ## Config loading (source lines 69–97)

`yaml.safe_load` is an external library; its result is modelled by the
`Yaml` value type below (keys restricted to strings, as in the config
schema).  A Python crash from a malformed document (`AttributeError` /
`TypeError` on a value of unexpected shape) is modelled by `Config.load`
returning `none`.  The model additionally requires `description`,
`keychain.service`, `keychain.json_path` and the repo `secrets` entries
to be strings where present. -/

/-- Model of the values produced by `yaml.safe_load`. -/
inductive Yaml where
  | null
  | bool (b : Bool)
  | num (n : Int)
  | str (s : String)
  | seq (elems : List Yaml)
  | map (entries : List (String × Yaml))

/-- Python truthiness of a loaded YAML value. -/
def Yaml.truthy : Yaml → Bool
  | .null => false
  | .bool b => b
  | .num n => n != 0
  | .str s => s != ""
  | .seq xs => !xs.isEmpty
  | .map m => !m.isEmpty

/-- Dict lookup (`d[k]` / `d.get(k)`) on a YAML mapping. -/
def yamlGet (entries : List (String × Yaml)) (k : String) : Option Yaml :=
  (entries.find? (fun p => p.1 == k)).map Prod.snd

/-- Embedding of `KeychainConfig(service=kc.get("service", ""), json_path=kc.get("json_path"))`
(source lines 80–83); `none` models a crash on a non-dict `kc`. -/
def loadKeychain : Yaml → Option KeychainConfig
  | .map kcm => do
      let service ← match yamlGet kcm "service" with
        | none => some ""
        | some (.str s) => some s
        | some _ => none
      let json_path ← match yamlGet kcm "json_path" with
        | none => some none
        | some .null => some none
        | some (.str s) => some (some s)
        | some _ => none
      some ⟨service, json_path⟩
  | _ => none

/-- One iteration of the secrets loop (source lines 76–88): a null body
yields no description and no keychain; a dict body is inspected for
`keychain` and `description`; any other body crashes the load. -/
def loadSecretDef (name : String) (info : Yaml) : Option SecretDef :=
  match info with
  | .null => some ⟨name, "", none⟩
  | .map m => do
      let keychain ←
        if Yaml.truthy (.map m) && (yamlGet m "keychain").isSome then
          match yamlGet m "keychain" with
          | some kc => (loadKeychain kc).map some
          | none => none
        else some none
      let description ← match yamlGet m "description" with
        | none => some ""
        | some (.str s) => some s
        | some _ => none
      some ⟨name, description, keychain⟩
  | _ => none

/-- The secrets loop over `data.get("secrets", {}).items()`. -/
def loadSecrets : List (String × Yaml) → Option (List (String × SecretDef))
  | [] => some []
  | (name, info) :: rest => do
      let sd ← loadSecretDef name info
      let tail ← loadSecrets rest
      some ((name, sd) :: tail)

/-- The repo `secrets` list; entries are required to be strings. -/
def loadStrList : Yaml → Option (List String)
  | .seq xs => xs.mapM (fun y => match y with | .str s => some s | _ => none)
  | _ => none

/-- One iteration of the repos loop (source lines 91–95):
`RepoDef(name=name, secrets=info.get("secrets", []))`. -/
def loadRepoDef (name : String) (info : Yaml) : Option RepoDef :=
  match info with
  | .map m =>
      match yamlGet m "secrets" with
      | none => some ⟨name, []⟩
      | some y => (loadStrList y).map (fun ss => ⟨name, ss⟩)
  | _ => none

/-- The repos loop over `data.get("repos", {}).items()`. -/
def loadRepos : List (String × Yaml) → Option (List (String × RepoDef))
  | [] => some []
  | (n, i) :: rest => do
      let rd ← loadRepoDef n i
      let tail ← loadRepos rest
      some ((n, rd) :: tail)

/-- Embedding of `Config.load` (source lines 69–97) applied to the already-parsed
document. -/
def Config.load (data : Yaml) : Option Config := do
  let top ← match data with | .map m => some m | _ => none
  let sEntries ← match yamlGet top "secrets" with
    | none => some []
    | some (.map m) => some m
    | some _ => none
  let secrets ← loadSecrets sEntries
  let rEntries ← match yamlGet top "repos" with
    | none => some []
    | some (.map m) => some m
    | some _ => none
  let repos ← loadRepos rEntries
  some ⟨secrets, repos⟩

/-! ## Orchestrator (source lines 174–266) -/

/-- Embedding of `secret_name in config.secrets` and `config.secrets[secret_name]`. -/
def lookupSecret (cfg : Config) (n : String) : Option SecretDef :=
  (cfg.secrets.find? (fun p => p.1 == n)).map Prod.snd

/-- Embedding of `[repo for repo in config.repos.values() if secret_name in repo.secrets]`
(source lines 193–195 and 252–254). -/
def reposNeeding (cfg : Config) (n : String) : List RepoDef :=
  (cfg.repos.map Prod.snd).filter (fun r => r.secrets.contains n)

/-- Python truthiness of the optional positional `secret` argument
(`args.secret` is `None` when absent and may be the falsy `""`). -/
def argTruthy : Option String → Bool
  | some s => s != ""
  | none => false

/-- The `cmd_list` loop over the selected names (source lines 181–200):
abort on the first unknown name, otherwise print the header and one
status line per repository needing the secret. -/
def cmd_list_go (w : World) (cfg : Config) : List String → Int × List Event
  | [] => (0, [])
  | n :: rest =>
      match lookupSecret cfg n with
      | none => (1, [Event.print ("Unknown secret: " ++ n)])
      | some sd =>
          let header := [Event.print ("\n" ++ n)]
            ++ (if sd.description != "" then
                  [Event.print ("  " ++ sd.description)] else [])
            ++ [Event.print ""]
          let repoEvs := (reposNeeding cfg n).flatMap (fun r =>
            let ex := secret_exists w r.name n
            ex.2 ++ [Event.print ("  "
              ++ (if ex.1 then "✓" else "✗ missing") ++ " " ++ r.name)])
          let rec' := cmd_list_go w cfg rest
          (rec'.1, header ++ repoEvs ++ rec'.2)

/-- Embedding of `cmd_list(args)` (source lines 174–202), with the already-loaded
config passed in. -/
def cmd_list (w : World) (cfg : Config) (argSecret : Option String) :
    Int × List Event :=
  let secret_names :=
    if argTruthy argSecret then [argSecret.getD ""]
    else cfg.secrets.map Prod.fst
  cmd_list_go w cfg secret_names

/-- Outcome of one iteration of the value-resolution loop in `cmd_sync`
(source lines 226–246): an uncaught exception, the `return 1` on an
empty value, or a resolved value. -/
inductive ResolveStep where
  | crashed
  | emptyFail
  | ok (v : String)
deriving DecidableEq

/-- Python truthiness of `value` after the keychain attempt
(`None` and `""` are both falsy). -/
def valTruthy : Option String → Bool
  | some s => s != ""
  | none => false

/-- The empty-value check after input acquisition (source lines
243–245).  All messages use the loop variable `secret_name`, as in the
source. -/
def resolveCheck (name value : String) (evs : List Event)
    (stdin : List String) : ResolveStep × List Event × List String :=
  if value = "" then
    (.emptyFail, evs ++ [Event.print ("Error: Empty value for " ++ name)],
      stdin)
  else (.ok value, evs, stdin)

/-- The input-acquisition fallback (source lines 237–245): prompt when
interactive, otherwise `sys.stdin.readline().strip()` (an exhausted
stdin models `readline` returning `""` at EOF), then the empty-value
check. -/
def resolveInput (w : World) (name : String) (stdin : List String)
    (evs : List Event) : ResolveStep × List Event × List String :=
  if w.isatty then
    resolveCheck name (w.getpass name) (evs ++ [Event.promptUser name]) stdin
  else
    resolveCheck name (pyStrip (stdin.headD ""))
      (evs ++ [Event.readLine]) stdin.tail

/-- One iteration of the resolution loop (source lines 226–246):
keychain first when configured, then the input fallback when the
keychain produced nothing truthy. -/
def resolveOne (w : World) (name : String) (sd : SecretDef)
    (stdin : List String) : ResolveStep × List Event × List String :=
  match sd.keychain with
  | some kc =>
      match get_from_keychain w kc with
      | (.crash, evs) => (.crashed, evs, stdin)
      | (.value v, evs) =>
          if valTruthy v then
            (.ok (v.getD ""),
              evs ++ [Event.print ("  ✓ Got " ++ name ++ " from keychain")],
              stdin)
          else resolveInput w name stdin evs
  | none => resolveInput w name stdin []

/-- Outcome of the whole resolution phase. -/
inductive ResolveOutcome where
  | crashed
  | emptyFail
  | ok (values : List (String × String))
deriving DecidableEq

/-- The resolution phase over all selected names (source lines
224–246).  The names were validated beforehand, so
`config.secrets[secret_name]` cannot fail; the `getD` default is dead
code on the validated path. -/
def resolveAll (w : World) (cfg : Config) :
    List String → List String → ResolveOutcome × List Event × List String
  | [], stdin => (.ok [], [], stdin)
  | n :: rest, stdin =>
      let sd := (lookupSecret cfg n).getD ⟨n, "", none⟩
      match resolveOne w n sd stdin with
      | (.crashed, evs, st) => (.crashed, evs, st)
      | (.emptyFail, evs, st) => (.emptyFail, evs, st)
      | (.ok v, evs, st) =>
          match resolveAll w cfg rest st with
          | (.crashed, evs2, st2) => (.crashed, evs ++ evs2, st2)
          | (.emptyFail, evs2, st2) => (.emptyFail, evs ++ evs2, st2)
          | (.ok vs, evs2, st2) => (.ok ((n, v) :: vs), evs ++ evs2, st2)

/-- One repository of the sync loop (source lines 256–263): skip when
the secret exists, log in dry-run mode, otherwise write. -/
def syncRepo (w : World) (dryRun : Bool) (values : List (String × String))
    (name : String) (r : RepoDef) : List Event :=
  let ex := secret_exists w r.name name
  if ex.1 then
    ex.2 ++ [Event.print ("  ✓ " ++ r.name ++ " (already set)")]
  else if dryRun then
    ex.2 ++ [Event.print ("  [dry-run] Would set " ++ name ++ " in " ++ r.name)]
  else
    ex.2 ++ (set_secret w r.name name
      (((values.find? (fun p => p.1 == name)).map Prod.snd).getD "") false).2

/-- One secret of the sync loop (source lines 249–263). -/
def syncSecret (w : World) (cfg : Config) (dryRun : Bool)
    (values : List (String × String)) (name : String) : List Event :=
  Event.print ("\nSyncing " ++ name ++ "...")
    :: (reposNeeding cfg name).flatMap (syncRepo w dryRun values name)

/-- The whole sync loop. -/
def syncPhase (w : World) (cfg : Config) (dryRun : Bool)
    (values : List (String × String)) (names : List String) : List Event :=
  names.flatMap (syncSecret w cfg dryRun values)

/-- Result of one process invocation: the exit code (`none` models a
crash from an uncaught exception) and the event trace. -/
structure Run where
  exit : Option Int
  events : List Event
deriving DecidableEq

/-- The secret selection of `cmd_sync` (source lines 210–216): `--all`
wins, then a truthy positional name, otherwise a usage error. -/
def selectNames (cfg : Config) (argAll : Bool) (argSecret : Option String) :
    Option (List String) :=
  if argAll then some (cfg.secrets.map Prod.fst)
  else if argTruthy argSecret then some [argSecret.getD ""]
  else none

/-- Embedding of `cmd_sync` after name selection (source lines 218–266): validate
every selected name, resolve all values unless dry-run, then sync. -/
def cmd_sync_selected (w : World) (cfg : Config) (names : List String)
    (dryRun : Bool) (stdin : List String) : Run :=
  match names.find? (fun n => (lookupSecret cfg n).isNone) with
  | some n => ⟨some 1, [Event.print ("Unknown secret: " ++ n)]⟩
  | none =>
      let res :=
        if dryRun then ((ResolveOutcome.ok []), ([] : List Event))
        else
          let r := resolveAll w cfg names stdin
          (r.1, r.2.1)
      match res with
      | (.crashed, evs) => ⟨none, evs⟩
      | (.emptyFail, evs) => ⟨some 1, evs⟩
      | (.ok values, evs) =>
          ⟨some 0, evs ++ syncPhase w cfg dryRun values names
            ++ [Event.print "\nDone."]⟩

/-- Embedding of `cmd_sync(args)` (source lines 205–266), with the already-loaded
config passed in.  The returned `Int` (inside `Run.exit`) is the
process exit code via `sys.exit(main())`. -/
def cmd_sync (w : World) (cfg : Config) (argAll : Bool)
    (argSecret : Option String) (dryRun : Bool) (stdin : List String) : Run :=
  match selectNames cfg argAll argSecret with
  | none => ⟨some 1, [Event.print "Error: Specify a secret name or use --all"]⟩
  | some names => cmd_sync_selected w cfg names dryRun stdin

/-! ## Trace-shape lemmas -/

/-- Holds exactly on the events the resolution phase can emit. -/
def isResolutionEv : Event → Bool
  | .securityFind _ _ => true
  | .promptUser _ => true
  | .readLine => true
  | .print _ => true
  | _ => false

theorem secret_exists_events (w : World) (r n : String) :
    (secret_exists w r n).2 = [Event.ghList r] := by
  simp only [secret_exists]
  split <;> rfl

theorem get_from_keychain_events (w : World) (kc : KeychainConfig) :
    (get_from_keychain w kc).2 = [] ∨
      (get_from_keychain w kc).2 = [Event.securityFind kc.service w.user] := by
  simp only [get_from_keychain]
  split
  · exact Or.inl rfl
  · split
    · exact Or.inr rfl
    · split
      · split
        · split
          · exact Or.inr rfl
          · split <;> exact Or.inr rfl
        · exact Or.inr rfl
      · exact Or.inr rfl

theorem resolveCheck_events (name value : String) (evs : List Event)
    (stdin : List String) (h : ∀ e ∈ evs, isResolutionEv e = true) :
    ∀ e ∈ (resolveCheck name value evs stdin).2.1, isResolutionEv e = true := by
  simp only [resolveCheck]
  split <;> intro e he
  · simp only [List.mem_append, List.mem_singleton] at he
    rcases he with he | he
    · exact h e he
    · subst he; rfl
  · exact h e he

theorem resolveInput_events (w : World) (name : String) (stdin : List String)
    (evs : List Event) (h : ∀ e ∈ evs, isResolutionEv e = true) :
    ∀ e ∈ (resolveInput w name stdin evs).2.1, isResolutionEv e = true := by
  simp only [resolveInput]
  split <;>
    refine resolveCheck_events _ _ _ _ ?_ <;> intro e he <;>
    simp only [List.mem_append, List.mem_singleton] at he <;>
    (rcases he with he | he
     · exact h e he
     · subst he; rfl)

theorem resolveOne_events (w : World) (name : String) (sd : SecretDef)
    (stdin : List String) :
    ∀ e ∈ (resolveOne w name sd stdin).2.1, isResolutionEv e = true := by
  have hkc : ∀ kc : KeychainConfig,
      ∀ e ∈ (get_from_keychain w kc).2, isResolutionEv e = true := by
    intro kc e he
    rcases get_from_keychain_events w kc with h | h <;> rw [h] at he
    · simp at he
    · simp only [List.mem_singleton] at he; subst he; rfl
  simp only [resolveOne]
  split
  · case _ kc _ =>
    split
    · case _ evs _ heq =>
      intro e he
      have := hkc kc e
      rw [heq] at this
      exact this he
    · case _ v evs heq =>
      have hmem : ∀ e ∈ evs, isResolutionEv e = true := by
        intro e he
        have := hkc kc e
        rw [heq] at this
        exact this he
      split
      · intro e he
        simp only [List.mem_append, List.mem_singleton] at he
        rcases he with he | he
        · exact hmem e he
        · subst he; rfl
      · exact resolveInput_events w name stdin evs hmem
  · exact resolveInput_events w name stdin [] (by simp)

theorem resolveAll_events (w : World) (cfg : Config) (ns : List String)
    (stdin : List String) :
    ∀ e ∈ (resolveAll w cfg ns stdin).2.1, isResolutionEv e = true := by
  induction ns generalizing stdin with
  | nil => simp [resolveAll]
  | cons n rest ih =>
      simp only [resolveAll]
      split
      · case _ evs st heq =>
        intro e he
        have := resolveOne_events w n ((lookupSecret cfg n).getD ⟨n, "", none⟩)
          stdin e
        rw [heq] at this
        exact this he
      · case _ evs st heq =>
        intro e he
        have := resolveOne_events w n ((lookupSecret cfg n).getD ⟨n, "", none⟩)
          stdin e
        rw [heq] at this
        exact this he
      · case _ v evs st heq =>
        have h1 : ∀ e ∈ evs, isResolutionEv e = true := by
          intro e he
          have := resolveOne_events w n ((lookupSecret cfg n).getD ⟨n, "", none⟩)
            stdin e
          rw [heq] at this
          exact this he
        split <;> intro e he <;>
          simp only [List.mem_append] at he <;>
          rcases he with he | he <;>
          first
            | exact h1 e he
            | (rename_i heq2
               have h2 := ih st e
               rw [heq2] at h2
               exact h2 he)


theorem resolveCheck_ok_ne (name value : String) (evs : List Event)
    (stdin : List String) (v : String) (evs2 : List Event) (st : List String)
    (h : resolveCheck name value evs stdin = (.ok v, evs2, st)) : v ≠ "" := by
  simp only [resolveCheck] at h
  split at h
  · simp at h
  · rename_i hne
    simp only [Prod.mk.injEq, ResolveStep.ok.injEq] at h
    rcases h with ⟨hv, -, -⟩
    subst hv
    exact hne

theorem resolveOne_ok_ne (w : World) (name : String) (sd : SecretDef)
    (stdin : List String) (v : String) (evs : List Event) (st : List String)
    (h : resolveOne w name sd stdin = (.ok v, evs, st)) : v ≠ "" := by
  have hin : ∀ ev0 st0, resolveInput w name st0 ev0 = (.ok v, evs, st) →
      v ≠ "" := by
    intro ev0 st0 hi
    simp only [resolveInput] at hi
    split at hi <;> exact resolveCheck_ok_ne _ _ _ _ _ _ _ hi
  simp only [resolveOne] at h
  split at h
  · split at h
    · simp at h
    · rename_i v0 evs0 heq
      split at h
      · rename_i ht
        simp only [Prod.mk.injEq, ResolveStep.ok.injEq] at h
        rcases h with ⟨hv, -, -⟩
        subst hv
        cases v0 with
        | none => simp [valTruthy] at ht
        | some s => simpa [valTruthy] using ht
      · exact hin evs0 stdin h
  · exact hin [] stdin h

theorem resolveAll_ok (w : World) (cfg : Config) (ns : List String)
    (stdin : List String) (vals : List (String × String)) (evs : List Event)
    (st : List String)
    (h : resolveAll w cfg ns stdin = (.ok vals, evs, st)) :
    vals.map Prod.fst = ns ∧ ∀ p ∈ vals, p.2 ≠ "" := by
  induction ns generalizing stdin vals evs st with
  | nil =>
      simp only [resolveAll, Prod.mk.injEq, ResolveOutcome.ok.injEq] at h
      rcases h with ⟨hv, -, -⟩
      subst hv
      simp
  | cons n rest ih =>
      simp only [resolveAll] at h
      split at h
      · simp at h
      · simp at h
      · rename_i v evs1 st1 heq1
        split at h
        · simp at h
        · simp at h
        · rename_i vs evs2 st2 heq2
          simp only [Prod.mk.injEq, ResolveOutcome.ok.injEq] at h
          rcases h with ⟨hv, -, -⟩
          subst hv
          obtain ⟨hkeys, hne⟩ := ih st1 vs evs2 st2 heq2
          refine ⟨by simp [hkeys], ?_⟩
          intro p hp
          rcases List.mem_cons.1 hp with hp | hp
          · subst hp
            exact resolveOne_ok_ne w n _ stdin v evs1 st1 heq1
          · exact hne p hp

theorem resolveAll_append (w : World) (cfg : Config) (ns1 ns2 : List String)
    (stdin st1 : List String) (vals : List (String × String)) (e1 : List Event)
    (h : resolveAll w cfg ns1 stdin = (.ok vals, e1, st1)) :
    resolveAll w cfg (ns1 ++ ns2) stdin =
      match resolveAll w cfg ns2 st1 with
      | (.crashed, e2, st2) => (.crashed, e1 ++ e2, st2)
      | (.emptyFail, e2, st2) => (.emptyFail, e1 ++ e2, st2)
      | (.ok vs2, e2, st2) => (.ok (vals ++ vs2), e1 ++ e2, st2) := by
  induction ns1 generalizing stdin vals e1 with
  | nil =>
      simp only [resolveAll, Prod.mk.injEq, ResolveOutcome.ok.injEq] at h
      rcases h with ⟨hv, he, hs⟩
      subst hv; subst he; subst hs
      simp only [List.nil_append]
      rcases hres : resolveAll w cfg ns2 stdin with ⟨o, e2, st2⟩
      cases o <;> simp
  | cons n rest ih =>
      simp only [resolveAll] at h ⊢
      split at h
      · simp at h
      · simp at h
      · rename_i v evs1 stA heq1
        split at h
        · simp at h
        · simp at h
        · rename_i vs evs2 st2 heq2
          simp only [Prod.mk.injEq, ResolveOutcome.ok.injEq] at h
          rcases h with ⟨hv, he, hs⟩
          subst hv; subst he; subst hs
          simp only [List.append_eq]
          rw [ih stA vs evs2 heq2]
          rcases hres : resolveAll w cfg ns2 st2 with ⟨o, e3, st3⟩
          cases o <;> simp

/-- Holds exactly on the events the sync loop can emit. -/
def isSyncEv : Event → Bool
  | .ghList _ => true
  | .ghSet _ _ _ => true
  | .print _ => true
  | _ => false

/-- The value the sync loop passes to `set_secret` for `name`
(`secret_values[secret_name]`, source line 263). -/
def syncValue (values : List (String × String)) (name : String) : String :=
  ((values.find? (fun p => p.1 == name)).map Prod.snd).getD ""

theorem syncRepo_skip (w : World) (dryRun : Bool)
    (values : List (String × String)) (name : String) (r : RepoDef)
    (h : (secret_exists w r.name name).1 = true) :
    syncRepo w dryRun values name r =
      [Event.ghList r.name,
       Event.print ("  ✓ " ++ r.name ++ " (already set)")] := by
  simp [syncRepo, h, secret_exists_events]

theorem syncRepo_dry (w : World) (values : List (String × String))
    (name : String) (r : RepoDef)
    (h : (secret_exists w r.name name).1 = false) :
    syncRepo w true values name r =
      [Event.ghList r.name,
       Event.print ("  [dry-run] Would set " ++ name ++ " in " ++ r.name)] := by
  simp [syncRepo, h, secret_exists_events]

theorem syncRepo_write (w : World) (values : List (String × String))
    (name : String) (r : RepoDef)
    (h : (secret_exists w r.name name).1 = false) :
    syncRepo w false values name r =
      Event.ghList r.name
        :: Event.ghSet r.name name (syncValue values name)
        :: (if (w.ghSecretSet r.name name (syncValue values name)).returncode
              ≠ 0 then
              [Event.print ("  ✗ Failed to set " ++ name ++ " in " ++ r.name
                ++ ": "
                ++ pyStrip (w.ghSecretSet r.name name
                      (syncValue values name)).stderr)]
            else
              [Event.print ("  ✓ Set " ++ name ++ " in " ++ r.name)]) := by
  simp only [syncRepo, set_secret, syncValue, h, secret_exists_events,
    Bool.false_eq_true, if_false]
  split <;> simp

theorem syncRepo_ghSet_mem (w : World) (dryRun : Bool)
    (values : List (String × String)) (name : String) (r : RepoDef)
    (rp n v : String)
    (h : Event.ghSet rp n v ∈ syncRepo w dryRun values name r) :
    dryRun = false ∧ rp = r.name ∧ n = name ∧ v = syncValue values name := by
  rcases hex : (secret_exists w r.name name).1 with hex | hex
  · cases dryRun with
    | false =>
        rw [syncRepo_write w values name r hex] at h
        simp only [List.mem_cons] at h
        rcases h with h | h | h
        · simp at h
        · simp only [Event.ghSet.injEq] at h
          exact ⟨rfl, h.1, h.2.1, h.2.2⟩
        · split at h <;> simp at h
    | true =>
        rw [syncRepo_dry w values name r hex] at h
        simp at h
  · rw [syncRepo_skip w dryRun values name r hex] at h
    simp at h

theorem syncRepo_events (w : World) (dryRun : Bool)
    (values : List (String × String)) (name : String) (r : RepoDef) :
    ∀ e ∈ syncRepo w dryRun values name r, isSyncEv e = true := by
  intro e he
  rcases hex : (secret_exists w r.name name).1 with hex | hex
  · cases dryRun with
    | false =>
        rw [syncRepo_write w values name r hex] at he
        simp only [List.mem_cons] at he
        rcases he with he | he | he
        · subst he; rfl
        · subst he; rfl
        · split at he <;> simp only [List.mem_singleton, List.not_mem_nil]
            at he <;> (subst he; rfl)
    | true =>
        rw [syncRepo_dry w values name r hex] at he
        simp only [List.mem_cons, List.not_mem_nil, or_false] at he
        rcases he with he | he <;> (subst he; rfl)
  · rw [syncRepo_skip w dryRun values name r hex] at he
    simp only [List.mem_cons, List.not_mem_nil, or_false] at he
    rcases he with he | he <;> (subst he; rfl)

theorem syncPhase_events (w : World) (cfg : Config) (dryRun : Bool)
    (values : List (String × String)) (names : List String) :
    ∀ e ∈ syncPhase w cfg dryRun values names, isSyncEv e = true := by
  intro e he
  simp only [syncPhase, List.mem_flatMap] at he
  rcases he with ⟨n, -, he⟩
  simp only [syncSecret, List.mem_cons] at he
  rcases he with he | he
  · subst he; rfl
  · simp only [List.mem_flatMap] at he
    rcases he with ⟨r, -, he⟩
    exact syncRepo_events w dryRun values n r e he

theorem syncPhase_ghSet_mem (w : World) (cfg : Config) (dryRun : Bool)
    (values : List (String × String)) (names : List String)
    (rp n v : String)
    (h : Event.ghSet rp n v ∈ syncPhase w cfg dryRun values names) :
    dryRun = false ∧ n ∈ names ∧ v = syncValue values n := by
  simp only [syncPhase, List.mem_flatMap] at h
  rcases h with ⟨n2, hn2, h⟩
  simp only [syncSecret, List.mem_cons] at h
  rcases h with h | h
  · simp at h
  · simp only [List.mem_flatMap] at h
    rcases h with ⟨r, -, h⟩
    obtain ⟨hd, -, hname, hv⟩ := syncRepo_ghSet_mem w dryRun values n2 r rp n v h
    subst hname
    exact ⟨hd, hn2, hv⟩

theorem syncPhase_repo_line (w : World) (cfg : Config) (dryRun : Bool)
    (values : List (String × String)) (names : List String) (n : String)
    (r : RepoDef) (hn : n ∈ names) (hr : r ∈ reposNeeding cfg n) :
    ∀ e ∈ syncRepo w dryRun values n r,
      e ∈ syncPhase w cfg dryRun values names := by
  intro e he
  simp only [syncPhase, List.mem_flatMap]
  refine ⟨n, hn, ?_⟩
  simp only [syncSecret, List.mem_cons, List.mem_flatMap]
  exact Or.inr ⟨r, hr, he⟩

theorem cmd_sync_validated (w : World) (cfg : Config) (argAll : Bool)
    (argSecret : Option String) (dryRun : Bool) (stdin : List String)
    (names : List String) (hsel : selectNames cfg argAll argSecret = some names) :
    cmd_sync w cfg argAll argSecret dryRun stdin =
      cmd_sync_selected w cfg names dryRun stdin := by
  simp [cmd_sync, hsel]

theorem cmd_sync_selected_dry (w : World) (cfg : Config)
    (names : List String) (stdin : List String)
    (hvalid : names.find? (fun n => (lookupSecret cfg n).isNone) = none) :
    cmd_sync_selected w cfg names true stdin =
      ⟨some 0, syncPhase w cfg true [] names ++ [Event.print "\nDone."]⟩ := by
  simp [cmd_sync_selected, hvalid]

theorem cmd_sync_selected_ok (w : World) (cfg : Config)
    (names : List String) (stdin : List String)
    (vals : List (String × String)) (evs : List Event) (st : List String)
    (hvalid : names.find? (fun n => (lookupSecret cfg n).isNone) = none)
    (hres : resolveAll w cfg names stdin = (.ok vals, evs, st)) :
    cmd_sync_selected w cfg names false stdin =
      ⟨some 0, evs ++ syncPhase w cfg false vals names
        ++ [Event.print "\nDone."]⟩ := by
  simp [cmd_sync_selected, hvalid, hres]

theorem cmd_sync_selected_emptyFail (w : World) (cfg : Config)
    (names : List String) (stdin : List String)
    (evs : List Event) (st : List String)
    (hvalid : names.find? (fun n => (lookupSecret cfg n).isNone) = none)
    (hres : resolveAll w cfg names stdin = (.emptyFail, evs, st)) :
    cmd_sync_selected w cfg names false stdin = ⟨some 1, evs⟩ := by
  simp [cmd_sync_selected, hvalid, hres]

theorem find_key_mem (vs : List (String × String)) (n : String)
    (h : n ∈ vs.map Prod.fst) :
    ∃ p ∈ vs, vs.find? (fun q => q.1 == n) = some p ∧ p.1 = n := by
  have hex : ∃ p ∈ vs, (fun q : String × String => q.1 == n) p := by
    rcases List.mem_map.1 h with ⟨p, hp, he⟩
    exact ⟨p, hp, by simp [he]⟩
  have h2 := List.find?_isSome.2 hex
  rcases Option.isSome_iff_exists.1 h2 with ⟨p, hfind⟩
  refine ⟨p, List.mem_of_find?_eq_some hfind, hfind, ?_⟩
  have := List.find?_some hfind
  simpa using this

/-! ## Example worlds for the concrete witnesses -/

/-- A deterministic example world: not macOS, piped stdin, remote
listing succeeds with one line naming `OTHER_SECRET`, remote writes
fail. -/
def dummyWorld : World :=
  { platform := "linux", user := "operator"
    security := fun _ => ⟨1, "", ""⟩
    loads := fun _ => none
    ghSecretList := fun _ => ⟨0, "OTHER_SECRET\tUpdated 2024-01-01\n", ""⟩
    ghSecretSet := fun _ _ _ => ⟨1, "", "HTTP 403\n"⟩
    isatty := false
    getpass := fun _ => "" }

/-- The raw keychain payload of the spec's scenario. -/
def kcBlob : String :=
  "\x7b\"claudeAiOauth\":\x7b\"accessToken\":\"tok_abc\"\x7d\x7d"

/-- The decoded form of `kcBlob`. -/
def kcJson : Json :=
  .obj [("claudeAiOauth", .obj [("accessToken", .str "tok_abc")])]

/-- A macOS world whose credential store holds `kcBlob`. -/
def keychainWorld : World :=
  { platform := "darwin", user := "operator"
    security := fun _ => ⟨0, kcBlob ++ "\n", ""⟩
    loads := fun s => if s = kcBlob then some kcJson else none
    ghSecretList := fun _ => ⟨1, "", ""⟩
    ghSecretSet := fun _ _ _ => ⟨1, "", ""⟩
    isatty := false
    getpass := fun _ => "" }

/-! ## Claims -/

/-- Claim C3: `secret_exists(repo, name)` returns true iff the listing
command exits zero and some output line's first tab-delimited field
equals `name` exactly (case-sensitively); a nonzero exit yields false,
never an error.  The trace is the single listing query. -/
theorem secret_exists_iff (w : World) (repo name : String) :
    ((secret_exists w repo name).1 = true ↔
      (w.ghSecretList repo).returncode = 0 ∧
        ∃ line ∈ pySplitlines (w.ghSecretList repo).stdout,
          (pySplit line '\t').headD "" = name) ∧
    (secret_exists w repo name).2 = [Event.ghList repo] := by
  refine ⟨?_, secret_exists_events w repo name⟩
  by_cases hrc : (w.ghSecretList repo).returncode = 0
  · simp [secret_exists, hrc, List.any_eq_true]
  · simp [secret_exists, hrc]

/-- Claim C9: a secret entry whose body is absent or null loads
successfully into a `SecretDef` with an empty description and no
keychain lookup, both at the level of the per-entry loader and of a
whole config document. -/
theorem load_null_secret_body (name : String) :
    loadSecretDef name Yaml.null = some ⟨name, "", none⟩ ∧
    Config.load (Yaml.map [("secrets", Yaml.map [(name, Yaml.null)])]) =
      some ⟨[(name, ⟨name, "", none⟩)], []⟩ := by
  exact ⟨rfl, rfl⟩

/-- Claim C10: in a sync invocation, `--all` takes precedence over the
positional secret name: the selection is the full key list of the
config, the run is identical to the run with no positional name at
all, and the selected names always pass validation (so an unknown
positional name cannot cause an error). -/
theorem sync_all_overrides_positional (w : World) (cfg : Config)
    (s : Option String) (dryRun : Bool) (stdin : List String) :
    selectNames cfg true s = some (cfg.secrets.map Prod.fst) ∧
    cmd_sync w cfg true s dryRun stdin =
      cmd_sync w cfg true none dryRun stdin ∧
    (cfg.secrets.map Prod.fst).find?
        (fun n => (lookupSecret cfg n).isNone) = none := by
  refine ⟨rfl, rfl, ?_⟩
  rw [List.find?_eq_none]
  intro n hn
  rcases List.mem_map.1 hn with ⟨p, hp, he⟩
  subst he
  have hex : ∃ q ∈ cfg.secrets, (fun q : String × SecretDef => q.1 == p.1) q :=
    ⟨p, hp, by simp⟩
  rcases Option.isSome_iff_exists.1 (List.find?_isSome.2 hex) with ⟨q, hq⟩
  simp [lookupSecret, hq]

/-- Claim C2: a sync or list invocation naming a secret absent from the
config's secrets mapping reports the unknown name and exits 1, with a
trace containing only that report: no value resolution and no remote
call of any kind happens. -/
theorem unknown_secret_fails_fast (w : World) (cfg : Config) (s : String)
    (dryRun : Bool) (stdin : List String)
    (hs : s ≠ "") (hunk : lookupSecret cfg s = none) :
    cmd_sync w cfg false (some s) dryRun stdin =
      ⟨some 1, [Event.print ("Unknown secret: " ++ s)]⟩ ∧
    cmd_list w cfg (some s) =
      (1, [Event.print ("Unknown secret: " ++ s)]) := by
  have hbne : (s != "") = true := by simpa using hs
  constructor
  · have hsel : selectNames cfg false (some s) = some [s] := by
      simp [selectNames, argTruthy, hbne]
    rw [cmd_sync_validated w cfg false (some s) dryRun stdin [s] hsel]
    simp [cmd_sync_selected, hunk]
  · simp [cmd_list, argTruthy, hbne, cmd_list_go, hunk]

theorem unknown_secret_fails_fast_witness :
    cmd_sync dummyWorld ⟨[], []⟩ false (some "UNKNOWN_SECRET") false [] =
      ⟨some 1, [Event.print ("Unknown secret: " ++ "UNKNOWN_SECRET")]⟩ ∧
    cmd_list dummyWorld ⟨[], []⟩ (some "UNKNOWN_SECRET") =
      (1, [Event.print ("Unknown secret: " ++ "UNKNOWN_SECRET")]) :=
  unknown_secret_fails_fast dummyWorld ⟨[], []⟩ "UNKNOWN_SECRET" false []
    (by decide) rfl

/-- Claim C6: when a keychain lookup has a nonempty `json_path` and the
store query succeeds with a nonempty payload that decodes to `d`, each
dot-separated segment of the path is applied as a key accessor and the
final value is returned coerced to a string. -/
theorem keychain_jsonpath_extracts (w : World) (kc : KeychainConfig)
    (jp : String) (d v : Json)
    (hplat : w.platform = "darwin")
    (hjp : kc.json_path = some jp) (hjpne : jp ≠ "")
    (hrc : (w.security kc.service).returncode = 0)
    (hne : pyStrip (w.security kc.service).stdout ≠ "")
    (hload : w.loads (pyStrip (w.security kc.service).stdout) = some d)
    (hwalk : jsonWalk d (pySplit jp '.') = .ok v) :
    get_from_keychain w kc =
      (.value (some (jsonPyStr v)),
        [Event.securityFind kc.service w.user]) := by
  simp [get_from_keychain, hplat, hrc, hjp, hjpne, hne, hload, hwalk]

theorem keychain_jsonpath_extracts_witness :
    get_from_keychain keychainWorld
        ⟨"svc", some "claudeAiOauth.accessToken"⟩ =
      (.value (some "tok_abc"), [Event.securityFind "svc" "operator"]) :=
  keychain_jsonpath_extracts keychainWorld
    ⟨"svc", some "claudeAiOauth.accessToken"⟩ "claudeAiOauth.accessToken"
    kcJson (.str "tok_abc") rfl rfl (by decide) rfl (by decide) rfl rfl

/-- Claim C7: in a keychain lookup, a nonzero exit of the store query,
a JSON-decode failure of the payload, or a missing key (Python
`KeyError`) along the `json_path` walk each make the lookup return
`None`; none of these three failures escapes as an error. -/
theorem keychain_failures_absent (w : World) (kc : KeychainConfig)
    (hplat : w.platform = "darwin")
    (hfail : (w.security kc.service).returncode ≠ 0 ∨
      ∃ jp, kc.json_path = some jp ∧ jp ≠ "" ∧
        pyStrip (w.security kc.service).stdout ≠ "" ∧
        (w.loads (pyStrip (w.security kc.service).stdout) = none ∨
          ∃ d, w.loads (pyStrip (w.security kc.service).stdout) = some d ∧
            jsonWalk d (pySplit jp '.') = .error .keyError)) :
    get_from_keychain w kc =
      (.value none, [Event.securityFind kc.service w.user]) := by
  rcases hfail with hrc | ⟨jp, hjp, hjpne, hne, hload⟩
  · simp [get_from_keychain, hplat, hrc]
  · rcases hload with hload | ⟨d, hload, hwalk⟩
    · by_cases hrc : (w.security kc.service).returncode = 0
      · simp [get_from_keychain, hplat, hrc, hjp, hjpne, hne, hload]
      · simp [get_from_keychain, hplat, hrc]
    · by_cases hrc : (w.security kc.service).returncode = 0
      · simp [get_from_keychain, hplat, hrc, hjp, hjpne, hne, hload, hwalk]
      · simp [get_from_keychain, hplat, hrc]

theorem keychain_failures_absent_witness :
    get_from_keychain keychainWorld ⟨"svc", some "missing"⟩ =
      (.value none, [Event.securityFind "svc" "operator"]) :=
  keychain_failures_absent keychainWorld ⟨"svc", some "missing"⟩ rfl
    (Or.inr ⟨"missing", rfl, by decide, by decide,
      Or.inr ⟨kcJson, rfl, rfl⟩⟩)

/-- Claim C8 counterexample: with a piped input line carrying leading
whitespace, the resolved value has the leading whitespace removed as
well (Python `str.strip()` trims both ends), contradicting the claim
that only trailing whitespace is trimmed and leading whitespace is
preserved. -/
theorem piped_leading_ws_stripped :
    resolveOne dummyWorld "TOKEN" ⟨"TOKEN", "", none⟩ ["  hello \n"] =
      (.ok "hello", [Event.readLine], []) ∧
    pyStripTrailing "  hello \n" = "  hello" ∧
    "hello" ≠ "  hello" ∧
    Event.ghSet "a/x" "T" "hello"
      ∈ (cmd_sync dummyWorld
          ⟨[("T", ⟨"T", "", none⟩)], [("a/x", ⟨"a/x", ["T"]⟩)]⟩
          false (some "T") false ["  hello \n"]).events :=
  ⟨rfl, by decide, by decide, by decide⟩

/-- Claim C8 (amended): when a secret with no keychain lookup is
resolved over a non-interactive input channel, exactly one line is read
from standard input and leading and trailing whitespace are both
trimmed from it before use. -/
theorem piped_input_one_line (w : World) (name : String) (sd : SecretDef)
    (l : String) (rest : List String)
    (hkc : sd.keychain = none) (htty : w.isatty = false)
    (hne : pyStrip l ≠ "") :
    resolveOne w name sd (l :: rest) =
      (.ok (pyStrip l), [Event.readLine], rest) := by
  simp [resolveOne, hkc, resolveInput, htty, resolveCheck, hne]

theorem piped_input_one_line_witness :
    resolveOne dummyWorld "T" ⟨"T", "", none⟩ ["v\n", "w\n"] =
      (.ok "v", [Event.readLine], ["w\n"]) :=
  piped_input_one_line dummyWorld "T" ⟨"T", "", none⟩ "v\n" ["w\n"]
    rfl rfl (by decide)

theorem cmd_sync_selected_unknown (w : World) (cfg : Config)
    (names : List String) (dryRun : Bool) (stdin : List String) (n0 : String)
    (hfind : names.find? (fun n => (lookupSecret cfg n).isNone) = some n0) :
    cmd_sync_selected w cfg names dryRun stdin =
      ⟨some 1, [Event.print ("Unknown secret: " ++ n0)]⟩ := by
  simp [cmd_sync_selected, hfind]

theorem cmd_sync_selected_crashed (w : World) (cfg : Config)
    (names : List String) (stdin : List String)
    (evs : List Event) (st : List String)
    (hvalid : names.find? (fun n => (lookupSecret cfg n).isNone) = none)
    (hres : resolveAll w cfg names stdin = (.crashed, evs, st)) :
    cmd_sync_selected w cfg names false stdin = ⟨none, evs⟩ := by
  simp [cmd_sync_selected, hvalid, hres]

theorem resolveCheck_emptyFail_print (name value : String) (evs : List Event)
    (stdin : List String) (e2 : List Event) (st2 : List String)
    (h : resolveCheck name value evs stdin = (.emptyFail, e2, st2)) :
    Event.print ("Error: Empty value for " ++ name) ∈ e2 := by
  simp only [resolveCheck] at h
  split at h
  · simp only [Prod.mk.injEq] at h
    rcases h with ⟨-, he, -⟩
    subst he
    simp
  · simp at h

theorem resolveOne_emptyFail_print (w : World) (name : String)
    (sd : SecretDef) (stdin : List String) (e2 : List Event)
    (st2 : List String)
    (h : resolveOne w name sd stdin = (.emptyFail, e2, st2)) :
    Event.print ("Error: Empty value for " ++ name) ∈ e2 := by
  have hin : ∀ ev0 st0, resolveInput w name st0 ev0 = (.emptyFail, e2, st2) →
      Event.print ("Error: Empty value for " ++ name) ∈ e2 := by
    intro ev0 st0 hi
    simp only [resolveInput] at hi
    split at hi <;> exact resolveCheck_emptyFail_print _ _ _ _ _ _ hi
  simp only [resolveOne] at h
  split at h
  · split at h
    · simp at h
    · rename_i v0 evs0 heq
      split at h
      · simp at h
      · exact hin evs0 stdin h
  · exact hin [] stdin h

theorem ghSet_value_nonempty (w : World) (cfg : Config) (argAll : Bool)
    (argSecret : Option String) (dryRun : Bool) (stdin : List String)
    (r n v : String)
    (hmem : Event.ghSet r n v
      ∈ (cmd_sync w cfg argAll argSecret dryRun stdin).events) :
    v ≠ "" := by
  rcases hsel : selectNames cfg argAll argSecret with _ | names
  · simp only [cmd_sync, hsel] at hmem
    simp at hmem
  · simp only [cmd_sync, hsel] at hmem
    rcases hval : names.find? (fun n2 => (lookupSecret cfg n2).isNone)
      with _ | n0
    case some =>
      rw [cmd_sync_selected_unknown w cfg names dryRun stdin n0 hval] at hmem
      simp at hmem
    case none =>
      cases dryRun with
      | true =>
          rw [cmd_sync_selected_dry w cfg names stdin hval] at hmem
          simp only [List.mem_append, List.mem_singleton] at hmem
          rcases hmem with hmem | hmem
          · have := syncPhase_ghSet_mem w cfg true [] names r n v hmem
            simp at this
          · simp at hmem
      | false =>
          rcases hres : resolveAll w cfg names stdin with ⟨o, e, st⟩
          cases o with
          | crashed =>
              rw [cmd_sync_selected_crashed w cfg names stdin e st hval hres]
                at hmem
              have hre := resolveAll_events w cfg names stdin
              rw [hres] at hre
              have := hre _ hmem
              simp [isResolutionEv] at this
          | emptyFail =>
              rw [cmd_sync_selected_emptyFail w cfg names stdin e st hval hres]
                at hmem
              have hre := resolveAll_events w cfg names stdin
              rw [hres] at hre
              have := hre _ hmem
              simp [isResolutionEv] at this
          | ok vals =>
              rw [cmd_sync_selected_ok w cfg names stdin vals e st hval hres]
                at hmem
              simp only [List.mem_append, List.mem_singleton] at hmem
              rcases hmem with (hmem | hmem) | hmem
              · have hre := resolveAll_events w cfg names stdin
                rw [hres] at hre
                have := hre _ hmem
                simp [isResolutionEv] at this
              · obtain ⟨-, hn, hv⟩ :=
                  syncPhase_ghSet_mem w cfg false vals names r n v hmem
                obtain ⟨hkeys, hne⟩ :=
                  resolveAll_ok w cfg names stdin vals e st hres
                rw [← hkeys] at hn
                obtain ⟨p, hp, hfind, hpk⟩ := find_key_mem vals n hn
                subst hv
                simp only [syncValue, hfind, Option.map_some', Option.getD_some]
                exact hne p hp
              · simp at hmem

/-- A small example config: one secret `T` without keychain, required
by repositories `a/x` and `a/y`. -/
def cfgT : Config :=
  ⟨[("T", ⟨"T", "", none⟩)],
   [("a/x", ⟨"a/x", ["T"]⟩), ("a/y", ⟨"a/y", ["T"]⟩)]⟩

/-- Claim C4: a dry-run sync performs no secret-set write regardless of
existence state, resolves no secret value at all (no keychain query, no
prompt, no stdin read), exits 0, and still prints a per-repository line
(already-set or intended action) for every repository requiring each
selected secret. -/
theorem dry_run_frame (w : World) (cfg : Config) (argAll : Bool)
    (argSecret : Option String) (names : List String) (stdin : List String)
    (hsel : selectNames cfg argAll argSecret = some names)
    (hvalid : names.find? (fun n => (lookupSecret cfg n).isNone) = none) :
    (cmd_sync w cfg argAll argSecret true stdin).exit = some 0 ∧
    (∀ r n v, Event.ghSet r n v
      ∉ (cmd_sync w cfg argAll argSecret true stdin).events) ∧
    (∀ sv u, Event.securityFind sv u
      ∉ (cmd_sync w cfg argAll argSecret true stdin).events) ∧
    (∀ n, Event.promptUser n
      ∉ (cmd_sync w cfg argAll argSecret true stdin).events) ∧
    Event.readLine ∉ (cmd_sync w cfg argAll argSecret true stdin).events ∧
    ∀ n ∈ names, ∀ r ∈ reposNeeding cfg n,
      Event.print ("  ✓ " ++ r.name ++ " (already set)")
          ∈ (cmd_sync w cfg argAll argSecret true stdin).events ∨
      Event.print ("  [dry-run] Would set " ++ n ++ " in " ++ r.name)
          ∈ (cmd_sync w cfg argAll argSecret true stdin).events := by
  rw [cmd_sync_validated w cfg argAll argSecret true stdin names hsel,
      cmd_sync_selected_dry w cfg names stdin hvalid]
  refine ⟨rfl, ?_, ?_, ?_, ?_, ?_⟩
  · intro r n v hmem
    simp only [List.mem_append, List.mem_singleton] at hmem
    rcases hmem with hmem | hmem
    · have := syncPhase_ghSet_mem w cfg true [] names r n v hmem
      simp at this
    · simp at hmem
  · intro sv u hmem
    simp only [List.mem_append, List.mem_singleton] at hmem
    rcases hmem with hmem | hmem
    · have := syncPhase_events w cfg true [] names _ hmem
      simp [isSyncEv] at this
    · simp at hmem
  · intro n hmem
    simp only [List.mem_append, List.mem_singleton] at hmem
    rcases hmem with hmem | hmem
    · have := syncPhase_events w cfg true [] names _ hmem
      simp [isSyncEv] at this
    · simp at hmem
  · intro hmem
    simp only [List.mem_append, List.mem_singleton] at hmem
    rcases hmem with hmem | hmem
    · have := syncPhase_events w cfg true [] names _ hmem
      simp [isSyncEv] at this
    · simp at hmem
  · intro n hn r hr
    rcases hex : (secret_exists w r.name n).1 with hex | hex
    · right
      have hm : Event.print ("  [dry-run] Would set " ++ n ++ " in " ++ r.name)
          ∈ syncRepo w true [] n r := by
        rw [syncRepo_dry w [] n r hex]
        simp
      exact List.mem_append_left _
        (syncPhase_repo_line w cfg true [] names n r hn hr _ hm)
    · left
      have hm : Event.print ("  ✓ " ++ r.name ++ " (already set)")
          ∈ syncRepo w true [] n r := by
        rw [syncRepo_skip w true [] n r hex]
        simp
      exact List.mem_append_left _
        (syncPhase_repo_line w cfg true [] names n r hn hr _ hm)

theorem dry_run_frame_witness :
    (cmd_sync dummyWorld cfgT false (some "T") true []).exit = some 0 :=
  (dry_run_frame dummyWorld cfgT false (some "T") ["T"] [] rfl rfl).1

/-- Claim C5: in a non-dry-run sync with valid names and successful
resolution, the process exits 0 whatever the outcomes of the remote
writes; every repository whose secret is missing gets a write attempt
(the run continues past failures, without rollback), and a failing
write is reported to the operator. -/
theorem write_failure_tolerated (w : World) (cfg : Config) (argAll : Bool)
    (argSecret : Option String) (names : List String) (stdin : List String)
    (vals : List (String × String)) (evs : List Event) (st : List String)
    (hsel : selectNames cfg argAll argSecret = some names)
    (hvalid : names.find? (fun n => (lookupSecret cfg n).isNone) = none)
    (hres : resolveAll w cfg names stdin = (.ok vals, evs, st)) :
    (cmd_sync w cfg argAll argSecret false stdin).exit = some 0 ∧
    ∀ n ∈ names, ∀ r ∈ reposNeeding cfg n,
      (secret_exists w r.name n).1 = false →
        Event.ghSet r.name n (syncValue vals n)
            ∈ (cmd_sync w cfg argAll argSecret false stdin).events ∧
        ((w.ghSecretSet r.name n (syncValue vals n)).returncode ≠ 0 →
          Event.print ("  ✗ Failed to set " ++ n ++ " in " ++ r.name
              ++ ": " ++ pyStrip (w.ghSecretSet r.name n
                (syncValue vals n)).stderr)
            ∈ (cmd_sync w cfg argAll argSecret false stdin).events) := by
  rw [cmd_sync_validated w cfg argAll argSecret false stdin names hsel,
      cmd_sync_selected_ok w cfg names stdin vals evs st hvalid hres]
  refine ⟨rfl, ?_⟩
  intro n hn r hr hex
  have hsub : ∀ e ∈ syncRepo w false vals n r,
      e ∈ evs ++ syncPhase w cfg false vals names
        ++ [Event.print "\nDone."] := by
    intro e he
    exact List.mem_append_left _ (List.mem_append_right _
      (syncPhase_repo_line w cfg false vals names n r hn hr _ he))
  constructor
  · apply hsub
    rw [syncRepo_write w vals n r hex]
    simp [syncValue]
  · intro hfail
    apply hsub
    rw [syncRepo_write w vals n r hex]
    simp only [syncValue] at hfail ⊢
    simp [hfail]

theorem write_failure_tolerated_witness :
    (cmd_sync dummyWorld cfgT false (some "T") false ["secret123\n"]).exit
      = some 0 :=
  (write_failure_tolerated dummyWorld cfgT false (some "T") ["T"]
    ["secret123\n"] [("T", "secret123")] [Event.readLine] []
    rfl rfl rfl).1

/-- Claim C1: in a non-dry-run sync, when the value resolved for a
selected secret is empty, the process prints the empty-value error and
exits 1; the trace is exactly the resolution events up to and including
that failure, so no later secret is resolved and no secret-set write
happens for any repository.  Moreover, in every invocation whatsoever,
any value passed to a secret-set write is nonempty. -/
theorem empty_value_aborts (w : World) (cfg : Config) (argAll : Bool)
    (argSecret : Option String) (ns1 ns2 : List String) (k : String)
    (stdin st1 st2 : List String) (vals : List (String × String))
    (e1 e2 : List Event)
    (hsel : selectNames cfg argAll argSecret = some (ns1 ++ k :: ns2))
    (hvalid : (ns1 ++ k :: ns2).find?
      (fun n => (lookupSecret cfg n).isNone) = none)
    (h1 : resolveAll w cfg ns1 stdin = (.ok vals, e1, st1))
    (h2 : resolveOne w k ((lookupSecret cfg k).getD ⟨k, "", none⟩) st1
      = (.emptyFail, e2, st2)) :
    cmd_sync w cfg argAll argSecret false stdin = ⟨some 1, e1 ++ e2⟩ ∧
    Event.print ("Error: Empty value for " ++ k) ∈ e2 ∧
    (∀ r n v, Event.ghSet r n v ∉ e1 ++ e2) ∧
    (∀ w2 cfg2 a2 s2 d2 in2 r n v,
      Event.ghSet r n v ∈ (cmd_sync w2 cfg2 a2 s2 d2 in2).events →
        v ≠ "") := by
  have hall : resolveAll w cfg (ns1 ++ k :: ns2) stdin
      = (.emptyFail, e1 ++ e2, st2) := by
    rw [resolveAll_append w cfg ns1 (k :: ns2) stdin st1 vals e1 h1]
    simp only [resolveAll]
    rw [h2]
  have he1 : ∀ e ∈ e1, isResolutionEv e = true := by
    have h := resolveAll_events w cfg ns1 stdin
    rw [h1] at h
    exact h
  have he2 : ∀ e ∈ e2, isResolutionEv e = true := by
    have h := resolveOne_events w k ((lookupSecret cfg k).getD ⟨k, "", none⟩)
      st1
    rw [h2] at h
    exact h
  refine ⟨?_, resolveOne_emptyFail_print w k _ st1 e2 st2 h2, ?_, ?_⟩
  · rw [cmd_sync_validated w cfg argAll argSecret false stdin _ hsel,
        cmd_sync_selected_emptyFail w cfg _ stdin (e1 ++ e2) st2 hvalid hall]
  · intro r n v hmem
    simp only [List.mem_append] at hmem
    rcases hmem with hmem | hmem
    · have := he1 _ hmem
      simp [isResolutionEv] at this
    · have := he2 _ hmem
      simp [isResolutionEv] at this
  · intro w2 cfg2 a2 s2 d2 in2 r n v hmem
    exact ghSet_value_nonempty w2 cfg2 a2 s2 d2 in2 r n v hmem

theorem empty_value_aborts_witness :
    cmd_sync dummyWorld cfgT false (some "T") false [] =
      ⟨some 1, [Event.readLine,
        Event.print ("Error: Empty value for " ++ "T")]⟩ :=
  (empty_value_aborts dummyWorld cfgT false (some "T") [] [] "T"
    [] [] [] [] [] [Event.readLine,
      Event.print ("Error: Empty value for " ++ "T")]
    rfl rfl rfl rfl).1
